import Mathlib

set_option maxRecDepth 8000

/-!
Shallow embedding of the BadgerDB buffer manager (`src/src/buffer.cpp`) and
proofs about its operations.  File identities, page numbers, frame numbers and
page payloads are modelled as `Nat`.  The collaborators that live outside
`src/` (the descriptor methods from `buffer.h`, the hash-table index
`BufHashTbl`, and the page-file `File`) are modelled from the spec, as marked
on each definition.
-/

namespace BadgerDB

/-- Error taxonomy of the buffer manager (spec section 7) plus the page
store's invalid-page failure.  `indexCapacity` is the
`InsufficientSpaceException` caught in `BufMgr::allocPage`. -/
inductive BufErr where
  | bufferExceeded
  | pageNotPinned
  | pagePinned
  | badBuffer
  | indexCapacity
  | invalidPage
deriving DecidableEq, Repr

deriving instance DecidableEq for Except

/-- A page: an abstract block carrying its embedded page number
(`Page::page_number()`); the payload is abstracted to one `Nat`. -/
structure Page where
  page_number : Nat
  data : Nat
deriving DecidableEq, Repr

/-- Frame descriptor (`BufDesc` from buffer.h).  `file` is `none` while the
descriptor references no file (default-constructed or cleared). -/
structure BufDesc where
  frameNo : Nat
  file : Option Nat
  pageNo : Nat
  valid : Bool
  pinCnt : Nat
  dirty : Bool
  refbit : Bool
deriving DecidableEq, Repr

/-- Modelled from the spec: `BufDesc::Set` lives in buffer.h, which is not in
src/.  Spec sections 3 and 4.1: set up the descriptor with the given file
and page, `pinCnt = 1`, `refbit = true`, `valid = true`, `dirty = false`;
`frameNo` is never reassigned. -/
def BufDesc.set (d : BufDesc) (f : Option Nat) (p : Nat) : BufDesc :=
  { d with file := f, pageNo := p, valid := true, pinCnt := 1,
           dirty := false, refbit := true }

/-- Modelled from the spec: `BufDesc::clear` lives in buffer.h, which is not
in src/.  Spec sections 3 and 4.4: clear the descriptor to invalid
(`pinCnt = 0`, `dirty = false`, `refbit = false`, no file reference). -/
def BufDesc.clear (d : BufDesc) : BufDesc :=
  { d with file := none, pageNo := 0, valid := false, pinCnt := 0,
           dirty := false, refbit := false }

/-- Modelled from the spec: the page index (`BufHashTbl`, not in src/) is an
abstract mapping from `(file, pageNo)` to `frameNo` (spec section 4.6),
represented as an association list; lookup yields a distinct not-found
outcome. -/
def htLookup : List ((Nat × Nat) × Nat) → Nat → Nat → Option Nat
  | [], _, _ => none
  | (k, fr) :: rest, f, p => if k = (f, p) then some fr else htLookup rest f p

/-- Replace the frame stored under a key, keeping every other entry. -/
def htReplace : List ((Nat × Nat) × Nat) → Nat → Nat → Nat → List ((Nat × Nat) × Nat)
  | [], _, _, _ => []
  | (k, fr0) :: rest, f, p, fr =>
      if k = (f, p) then (k, fr) :: htReplace rest f p fr
      else (k, fr0) :: htReplace rest f p fr

/-- Modelled from the spec: index insertion (spec section 4.6) keeps at most
one entry per key and fails under an index-capacity bound distinct from
buffer-pool exhaustion (the `InsufficientSpaceException` caught in
`BufMgr::allocPage`). -/
def htInsert (ht : List ((Nat × Nat) × Nat)) (cap f p fr : Nat) :
    Except BufErr (List ((Nat × Nat) × Nat)) :=
  match htLookup ht f p with
  | some _ => .ok (htReplace ht f p fr)
  | none => if ht.length < cap then .ok (((f, p), fr) :: ht) else .error .indexCapacity

/-- Modelled from the spec: index removal (spec section 4.6). -/
def htRemove : List ((Nat × Nat) × Nat) → Nat → Nat → List ((Nat × Nat) × Nat)
  | [], _, _ => []
  | (k, fr) :: rest, f, p =>
      if k = (f, p) then htRemove rest f p else (k, fr) :: htRemove rest f p

/-- State of the buffer manager together with its collaborators: the page
store (`storePages` maps `(file, pageNo)` to the stored payload, `storeNext`
tracks the next page number handed out by `File::allocatePage`) and the event
logs of the page-store calls (`reads`, `writes`, `deletes` record each
`File::readPage`, `File::writePage`, `File::deletePage` call as a
`(file, pageNo)` event). -/
structure BufState where
  numBufs : Nat
  bufDescTable : List BufDesc
  bufPool : List Page
  hashTable : List ((Nat × Nat) × Nat)
  htCapacity : Nat
  clockHand : Nat
  storePages : List ((Nat × Nat) × Nat)
  storeNext : List (Nat × Nat)
  reads : List (Nat × Nat)
  writes : List (Nat × Nat)
  deletes : List (Nat × Nat)
deriving DecidableEq, Repr

/-- Default descriptor, used only as the out-of-range fallback of `descAt`;
the C++ never indexes the table out of range. -/
def bufDescDefault : BufDesc :=
  { frameNo := 0, file := none, pageNo := 0, valid := false, pinCnt := 0,
    dirty := false, refbit := false }

def descAt (st : BufState) (i : Nat) : BufDesc :=
  st.bufDescTable.getD i bufDescDefault

def descUpdate (st : BufState) (i : Nat) (g : BufDesc → BufDesc) : BufState :=
  { st with bufDescTable := st.bufDescTable.set i (g (descAt st i)) }

def poolAt (st : BufState) (i : Nat) : Page :=
  st.bufPool.getD i { page_number := 0, data := 0 }

def poolSet (st : BufState) (i : Nat) (pg : Page) : BufState :=
  { st with bufPool := st.bufPool.set i pg }

/-- Update-or-add a page of the store. -/
def storeSetPage (l : List ((Nat × Nat) × Nat)) (f p dat : Nat) :
    List ((Nat × Nat) × Nat) :=
  match htLookup l f p with
  | some _ => htReplace l f p dat
  | none => ((f, p), dat) :: l

/-- Modelled from the spec: `File::writePage` (spec section 6) overwrites the
page at its embedded page number; the call is logged in `writes`. -/
def storeWritePage (st : BufState) (f : Nat) (pg : Page) : BufState :=
  { st with storePages := storeSetPage st.storePages f pg.page_number pg.data,
            writes := st.writes ++ [(f, pg.page_number)] }

/-- Modelled from the spec: `File::readPage` (spec section 6) fails if the
page does not exist; a successful call is logged in `reads`. -/
def storeReadPage (st : BufState) (f p : Nat) : BufState × Except BufErr Page :=
  match htLookup st.storePages f p with
  | some dat => ({ st with reads := st.reads ++ [(f, p)] }, .ok { page_number := p, data := dat })
  | none => (st, .error .invalidPage)

/-- Lookup in the per-file next-page-number table. -/
def nextLookup : List (Nat × Nat) → Nat → Option Nat
  | [], _ => none
  | (k, v) :: rest, f => if k = f then some v else nextLookup rest f

/-- Update-or-add in the per-file next-page-number table. -/
def nextSet : List (Nat × Nat) → Nat → Nat → List (Nat × Nat)
  | [], f, v => [(f, v)]
  | (k, v0) :: rest, f, v => if k = f then (k, v) :: rest else (k, v0) :: nextSet rest f v

/-- Modelled from the spec: `File::allocatePage` (spec section 6) extends the
file with a fresh page number and returns it; page numbers start at 1. -/
def storeAllocPage (st : BufState) (f : Nat) : BufState × Nat :=
  let p := (nextLookup st.storeNext f).getD 1
  ({ st with storePages := storeSetPage st.storePages f p 0,
             storeNext := nextSet st.storeNext f (p + 1) }, p)

/-- Modelled from the spec: `File::deletePage` (spec section 6) removes the
page's slot from the file; the call is logged in `deletes`. -/
def storeDeletePage (st : BufState) (f p : Nat) : BufState :=
  { st with storePages := htRemove st.storePages f p,
            deletes := st.deletes ++ [(f, p)] }

/-- The `BufMgr` constructor: each descriptor gets `frameNo = i` and
`valid = false`, and `clockHand = numBufs - 1`.  The index capacity and the
initial page-store contents are parameters of the model. -/
def mkBufState (n cap : Nat) (pages : List ((Nat × Nat) × Nat)) : BufState :=
  { numBufs := n,
    bufDescTable := (List.range n).map (fun i => { bufDescDefault with frameNo := i }),
    bufPool := List.replicate n { page_number := 0, data := 0 },
    hashTable := [],
    htCapacity := cap,
    clockHand := n - 1,
    storePages := pages,
    storeNext := [],
    reads := [],
    writes := [],
    deletes := [] }

/-- `BufMgr::advanceClock`. -/
def advanceClock (st : BufState) : BufState :=
  { st with clockHand := (st.clockHand + 1) % st.numBufs }

/-- Number of frames whose refbit is set; the clock sweep only ever clears
refbits, so this bounds the number of second chances it can grant. -/
def countRefbits (st : BufState) : Nat :=
  (st.bufDescTable.filter (fun d => d.refbit)).length

/-- The clock sweep of `BufMgr::allocBuf` as a fuel-indexed recursion (`none`
means the fuel ran out).  Each iteration advances the clock, compares the
pinned-frame counter `num_frames_pinned` against `numBufs`, and then examines
the frame under the hand exactly as the source does: a valid frame with its
refbit set gets the refbit cleared; a valid, refbit-clear, pinned frame bumps
the counter; a valid, refbit-clear, unpinned frame is the victim (written back
first when dirty, then re-`Set` with its own file and page); an invalid frame
is taken immediately.  The source never removes the victim's hash-table
entry. -/
def allocBufAux : Nat → Nat → BufState → Option (BufState × Except BufErr Nat)
  | 0, _, _ => none
  | fuel + 1, numPinned, st0 =>
    let st := advanceClock st0
    if st.numBufs ≤ numPinned then some (st, .error .bufferExceeded)
    else
      let d := descAt st st.clockHand
      if d.valid then
        if d.refbit then
          allocBufAux fuel numPinned
            (descUpdate st st.clockHand (fun d1 => { d1 with refbit := false }))
        else if d.pinCnt = 0 then
          let st1 := if d.dirty then storeWritePage st (d.file.getD 0) (poolAt st st.clockHand)
                     else st
          some (descUpdate st1 st.clockHand (fun d1 => d1.set d.file d.pageNo), .ok d.frameNo)
        else
          allocBufAux fuel (numPinned + 1) st
      else
        some (st, .ok d.frameNo)

/-- Fuel bound for the sweep: each iteration either clears one refbit (at most
`countRefbits` times, as the sweep never sets a refbit), increments the
pinned counter (at most `numBufs` times before the exhaustion check fires),
or terminates. -/
def allocBufFuel (st : BufState) : Nat := countRefbits st + st.numBufs + 1

/-- `BufMgr::allocBuf`. -/
def allocBuf (st : BufState) : BufState × Except BufErr Nat :=
  match allocBufAux (allocBufFuel st) 0 st with
  | some r => r
  | none => (st, .error .bufferExceeded)

/-- `BufMgr::readPage` (the spec's `fetchPage`).  On an index hit the frame's
pin count is incremented and its refbit set; on a miss a frame is allocated,
the page read from the store into the pool, the index entry inserted, and the
descriptor `Set`.  The returned `Nat` is the frame whose pool slot the C++
`page` pointer references; state mutations made before a propagating failure
are kept, as C++ exceptions do not roll them back. -/
def readPage (st : BufState) (file pageNo : Nat) : BufState × Except BufErr Nat :=
  match htLookup st.hashTable file pageNo with
  | some frameId =>
      (descUpdate st frameId (fun d => { d with pinCnt := d.pinCnt + 1, refbit := true }),
       .ok frameId)
  | none =>
      match allocBuf st with
      | (st1, .error e) => (st1, .error e)
      | (st1, .ok frameId) =>
        match storeReadPage st1 file pageNo with
        | (st2, .error e) => (st2, .error e)
        | (st2, .ok pg) =>
          let st3 := poolSet st2 frameId pg
          match htInsert st3.hashTable st3.htCapacity file pageNo frameId with
          | .error e => (st3, .error e)
          | .ok ht =>
              (descUpdate { st3 with hashTable := ht } frameId
                 (fun d => d.set (some file) pageNo), .ok frameId)

/-- `BufMgr::unPinPage`: an index miss is a no-op; a present page with
`pinCnt = 0` raises `PageNotPinned`; otherwise the pin count drops by one and
the dirty bit is set when requested. -/
def unPinPage (st : BufState) (file pageNo : Nat) (dirty : Bool) :
    BufState × Option BufErr :=
  match htLookup st.hashTable file pageNo with
  | none => (st, none)
  | some frameId =>
      if (descAt st frameId).pinCnt = 0 then (st, some .pageNotPinned)
      else
        (descUpdate st frameId
           (fun d => { d with pinCnt := d.pinCnt - 1,
                              dirty := if dirty then true else d.dirty }), none)

/-- `BufMgr::allocPage` (the spec's `allocatePage`): allocate a store page,
claim a frame, write the fresh page into the pool, `Set` the descriptor, and
insert the index entry, swallowing an `InsufficientSpaceException` from the
insert (the source's catch block does nothing). -/
def allocPage (st : BufState) (file : Nat) : BufState × Except BufErr (Nat × Nat) :=
  let ap := storeAllocPage st file
  let pageNo := ap.2
  match allocBuf ap.1 with
  | (st1, .error e) => (st1, .error e)
  | (st1, .ok frameNo) =>
      let st2 := poolSet st1 frameNo { page_number := pageNo, data := 0 }
      let st3 := descUpdate st2 frameNo (fun d => d.set (some file) pageNo)
      match htInsert st3.hashTable st3.htCapacity file pageNo frameNo with
      | .ok ht => ({ st3 with hashTable := ht }, .ok (pageNo, frameNo))
      | .error _ => (st3, .ok (pageNo, frameNo))

/-- One iteration of the `BufMgr::flushFile` loop at frame `i`: a frame whose
descriptor references the file is rejected when invalid (`BadBuffer`) or
pinned (`PagePinned`); otherwise a dirty page is written back and the dirty
bit cleared, the index entry for the frame's current page removed, and the
descriptor cleared. -/
def flushOne (f i : Nat) (st : BufState) : BufState × Option BufErr :=
  let d := descAt st i
  if d.file = some f then
    if d.valid = false then (st, some .badBuffer)
    else if 1 ≤ d.pinCnt then (st, some .pagePinned)
    else
      let st1 := if d.dirty then
          descUpdate (storeWritePage st (d.file.getD 0) (poolAt st i)) i
            (fun d1 => { d1 with dirty := false })
        else st
      let st2 := { st1 with hashTable := htRemove st1.hashTable f d.pageNo }
      (descUpdate st2 i (fun d1 => d1.clear), none)
  else (st, none)

/-- The `BufMgr::flushFile` loop over a list of frame indices; an error from
an iteration aborts the remainder, keeping the state mutated so far. -/
def flushFrames (f : Nat) : List Nat → BufState → BufState × Option BufErr
  | [], st => (st, none)
  | i :: rest, st =>
      match flushOne f i st with
      | (st1, none) => flushFrames f rest st1
      | (st1, some e) => (st1, some e)

/-- `BufMgr::flushFile`. -/
def flushFile (st : BufState) (f : Nat) : BufState × Option BufErr :=
  flushFrames f (List.range st.numBufs) st

/-- `BufMgr::disposePage`: on an index hit the descriptor is cleared and the
index entry removed (no pin-count check); a miss is swallowed; in every case
the delete request is forwarded to the page store. -/
def disposePage (st : BufState) (file pageNo : Nat) : BufState :=
  let st1 :=
    match htLookup st.hashTable file pageNo with
    | some frameId =>
        { descUpdate st frameId (fun d => d.clear) with
            hashTable := htRemove st.hashTable file pageNo }
    | none => st
  storeDeletePage st1 file pageNo

/-- Well-formedness established by the constructor: a non-empty pool, a
descriptor table of matching length, and `frameNo = i` at every slot. -/
def WF (st : BufState) : Prop :=
  0 < st.numBufs ∧ st.bufDescTable.length = st.numBufs ∧
    ∀ i, i < st.numBufs → (descAt st i).frameNo = i

/-- The sweep outside its terminating step only clears refbits: descriptors of
`st1` agree with those of `st` except possibly for a cleared refbit. -/
def descRefClearOnly (st st1 : BufState) : Prop :=
  ∀ i, descAt st1 i = descAt st i ∨ descAt st1 i = { descAt st i with refbit := false }

/-! ### Concrete scenarios

A one-frame pool over file 0 with pages 1 and 2 on disk; fetch page 1, unpin
it, fetch page 2 (which evicts page 1), unpin page 2.  The source's `allocBuf`
leaves the hash-table entry of the evicted page in place. -/

def stTrace0 : BufState := mkBufState 1 10 [((0, 1), 5), ((0, 2), 7)]

def stTrace1 : BufState := (readPage stTrace0 0 1).1

def stTrace2 : BufState := (unPinPage stTrace1 0 1 false).1

def stTrace3 : BufState := (readPage stTrace2 0 2).1

def stTrace4 : BufState := (unPinPage stTrace3 0 2 false).1

/-- A two-frame pool over file 0 with pages 1..4 on disk; fetch pages 1 and 2,
unpin 2, fetch 3 (evicting 2), unpin 3.  Frame 0 stays pinned, frame 1 ends
unpinned with its refbit set. -/
def stTwo0 : BufState := mkBufState 2 10 [((0, 1), 1), ((0, 2), 2), ((0, 3), 3), ((0, 4), 4)]

def stTwo1 : BufState := (readPage stTwo0 0 1).1

def stTwo2 : BufState := (readPage stTwo1 0 2).1

def stTwo3 : BufState := (unPinPage stTwo2 0 2 false).1

def stTwo4 : BufState := (readPage stTwo3 0 3).1

def stTwo5 : BufState := (unPinPage stTwo4 0 3 false).1

/-- A one-frame pool whose page index has capacity 0, so every index insertion
fails with the capacity error. -/
def stCap0 : BufState := mkBufState 1 0 []

/-- After `allocPage` on the zero-capacity pool: the descriptor of frame 0 is
valid for page (0, 1) but the index has no entry for it. -/
def stCap1 : BufState := (allocPage stCap0 0).1

/-- After fetching page (0, 1) and unpinning it with `markDirty = true`: a
consistent one-frame state whose single frame is a dirty, unpinned resident
of (0, 1) with a matching index entry. -/
def stFl0 : BufState := (unPinPage stTrace1 0 1 true).1

/-- A one-frame pool whose single frame is a valid, unpinned, refbit-clear,
dirty resident of page (3, 7): the next sweep must write it back. -/
def stDirty : BufState :=
  { mkBufState 1 10 [] with
      bufDescTable := [{ frameNo := 0, file := some 3, pageNo := 7, valid := true,
                         pinCnt := 0, dirty := true, refbit := false }],
      bufPool := [{ page_number := 7, data := 42 }] }

/-! ### List and association-list helper lemmas -/

theorem getD_set {α : Type} (l : List α) (i j : Nat) (a d : α) :
    (l.set i a).getD j d = if i = j ∧ i < l.length then a else l.getD j d := by
  induction l generalizing i j with
  | nil => simp
  | cons x xs ih =>
      cases i with
      | zero =>
          cases j with
          | zero => simp
          | succ m => simp
      | succ n =>
          cases j with
          | zero => simp
          | succ m =>
              simp only [List.set, List.getD_cons_succ, List.length_cons, ih n m]
              by_cases hnm : n = m
              · subst hnm
                by_cases hl : n < xs.length
                · simp [hl, Nat.succ_lt_succ hl]
                · simp [hl, fun h => hl (Nat.lt_of_succ_lt_succ h)]
              · simp [hnm, fun h : n + 1 = m + 1 => hnm (Nat.succ_injective h)]

theorem htLookup_mem : ∀ (ht : List ((Nat × Nat) × Nat)) (f p fr : Nat),
    htLookup ht f p = some fr → ((f, p), fr) ∈ ht
  | [], f, p, fr, h => by simp [htLookup] at h
  | (k, fr0) :: rest, f, p, fr, h => by
      by_cases hk : k = (f, p)
      · subst hk
        simp [htLookup] at h
        subst h
        exact List.mem_cons_self _ _
      · simp only [htLookup, if_neg hk] at h
        exact List.mem_cons_of_mem _ (htLookup_mem rest f p fr h)

theorem htLookup_htRemove_self : ∀ (ht : List ((Nat × Nat) × Nat)) (f p : Nat),
    htLookup (htRemove ht f p) f p = none
  | [], _, _ => rfl
  | (k, fr0) :: rest, f, p => by
      by_cases hk : k = (f, p)
      · simp only [htRemove, if_pos hk]
        exact htLookup_htRemove_self rest f p
      · simp only [htRemove, if_neg hk, htLookup, if_neg hk]
        exact htLookup_htRemove_self rest f p

theorem htLookup_htRemove_ne : ∀ (ht : List ((Nat × Nat) × Nat)) (f p f1 p1 : Nat),
    (f1, p1) ≠ (f, p) → htLookup (htRemove ht f p) f1 p1 = htLookup ht f1 p1
  | [], _, _, _, _, _ => rfl
  | (k, fr0) :: rest, f, p, f1, p1, h => by
      by_cases hk : k = (f, p)
      · subst hk
        have hne : ¬((f, p) = (f1, p1)) := fun he => h he.symm
        simp only [htRemove, if_pos rfl, htLookup, if_neg hne]
        exact htLookup_htRemove_ne rest f p f1 p1 h
      · simp only [htRemove, if_neg hk, htLookup]
        by_cases hk1 : k = (f1, p1)
        · simp [hk1]
        · simp only [if_neg hk1]
          exact htLookup_htRemove_ne rest f p f1 p1 h

theorem mem_htRemove : ∀ (ht : List ((Nat × Nat) × Nat)) (f p : Nat)
    (e : (Nat × Nat) × Nat), e ∈ htRemove ht f p → e ∈ ht
  | [], f, p, e, h => by simp [htRemove] at h
  | (k, fr0) :: rest, f, p, e, h => by
      by_cases hk : k = (f, p)
      · simp only [htRemove, if_pos hk] at h
        exact List.mem_cons_of_mem _ (mem_htRemove rest f p e h)
      · simp only [htRemove, if_neg hk, List.mem_cons] at h
        rcases h with h1 | h1
        · exact h1 ▸ List.mem_cons_self _ _
        · exact List.mem_cons_of_mem _ (mem_htRemove rest f p e h1)

/-! ### State-accessor lemmas -/

theorem descAt_descUpdate (st : BufState) (i j : Nat) (g : BufDesc → BufDesc) :
    descAt (descUpdate st i g) j =
      if i = j ∧ i < st.bufDescTable.length then g (descAt st i) else descAt st j :=
  getD_set st.bufDescTable i j (g (descAt st i)) bufDescDefault

theorem descAt_descUpdate_self (st : BufState) (i : Nat) (g : BufDesc → BufDesc)
    (h : i < st.bufDescTable.length) :
    descAt (descUpdate st i g) i = g (descAt st i) := by
  simp [descAt_descUpdate, h]

theorem descAt_descUpdate_ne (st : BufState) (i j : Nat) (g : BufDesc → BufDesc)
    (h : i ≠ j) :
    descAt (descUpdate st i g) j = descAt st j := by
  simp [descAt_descUpdate, h]

theorem poolAt_poolSet (st : BufState) (i j : Nat) (pg : Page) :
    poolAt (poolSet st i pg) j =
      if i = j ∧ i < st.bufPool.length then pg else poolAt st j :=
  getD_set st.bufPool i j pg { page_number := 0, data := 0 }

theorem descAt_storeWritePage (st : BufState) (f0 : Nat) (pg : Page) (i : Nat) :
    descAt (storeWritePage st f0 pg) i = descAt st i := rfl

theorem descAt_advanceClock (st : BufState) (i : Nat) :
    descAt (advanceClock st) i = descAt st i := rfl

theorem poolAt_storeWritePage (st : BufState) (f0 : Nat) (pg : Page) (i : Nat) :
    poolAt (storeWritePage st f0 pg) i = poolAt st i := rfl

theorem poolAt_advanceClock (st : BufState) (i : Nat) :
    poolAt (advanceClock st) i = poolAt st i := rfl

theorem descUpdate_writes (st : BufState) (i : Nat) (g : BufDesc → BufDesc) :
    (descUpdate st i g).writes = st.writes := rfl

theorem storeWritePage_writes (st : BufState) (f0 : Nat) (pg : Page) :
    (storeWritePage st f0 pg).writes = st.writes ++ [(f0, pg.page_number)] := rfl

theorem storeWritePage_bufDescTable (st : BufState) (f0 : Nat) (pg : Page) :
    (storeWritePage st f0 pg).bufDescTable = st.bufDescTable := rfl

theorem advanceClock_bufDescTable (st : BufState) :
    (advanceClock st).bufDescTable = st.bufDescTable := rfl

theorem advanceClock_writes (st : BufState) :
    (advanceClock st).writes = st.writes := rfl

theorem poolSet_hashTable (st : BufState) (i : Nat) (pg : Page) :
    (poolSet st i pg).hashTable = st.hashTable := rfl

theorem poolSet_bufDescTable (st : BufState) (i : Nat) (pg : Page) :
    (poolSet st i pg).bufDescTable = st.bufDescTable := rfl

theorem poolSet_reads (st : BufState) (i : Nat) (pg : Page) :
    (poolSet st i pg).reads = st.reads := rfl

theorem descUpdate_reads (st : BufState) (i : Nat) (g : BufDesc → BufDesc) :
    (descUpdate st i g).reads = st.reads := rfl

theorem descUpdate_hashTable (st : BufState) (i : Nat) (g : BufDesc → BufDesc) :
    (descUpdate st i g).hashTable = st.hashTable := rfl

theorem descAt_setHashTable (st : BufState) (ht : List ((Nat × Nat) × Nat)) (j : Nat) :
    descAt { st with hashTable := ht } j = descAt st j := rfl

/-! ### Clock sweep: preservation and selection lemmas -/

theorem descRefClearOnly_of_eq (st st1 : BufState)
    (h : st1.bufDescTable = st.bufDescTable) : descRefClearOnly st st1 :=
  fun i => Or.inl (by simp [descAt, h])

theorem descRefClearOnly_trans (st st1 st2 : BufState)
    (h1 : descRefClearOnly st st1) (h2 : descRefClearOnly st1 st2) :
    descRefClearOnly st st2 := by
  intro i
  rcases h2 i with h | h
  · rw [h]
    exact h1 i
  · rw [h]
    rcases h1 i with h0 | h0
    · rw [h0]
      exact Or.inr rfl
    · rw [h0]
      exact Or.inr rfl

theorem descRefClearOnly_fields (st st1 : BufState) (h : descRefClearOnly st st1)
    (i : Nat) :
    (descAt st1 i).valid = (descAt st i).valid ∧
    (descAt st1 i).pinCnt = (descAt st i).pinCnt ∧
    (descAt st1 i).dirty = (descAt st i).dirty ∧
    (descAt st1 i).file = (descAt st i).file ∧
    (descAt st1 i).pageNo = (descAt st i).pageNo ∧
    (descAt st1 i).frameNo = (descAt st i).frameNo := by
  rcases h i with h0 | h0 <;> rw [h0] <;> simp

theorem descRefClearOnly_clearStep (st : BufState) (i : Nat) :
    descRefClearOnly st (descUpdate st i (fun d1 => { d1 with refbit := false })) := by
  intro j
  rw [descAt_descUpdate]
  by_cases hc : i = j ∧ i < st.bufDescTable.length
  · rw [if_pos hc, hc.1]
    exact Or.inr rfl
  · rw [if_neg hc]
    exact Or.inl rfl

/-- Fields of the state the sweep never touches, whatever it returns. -/
theorem allocBufAux_pres : ∀ (fuel c : Nat) (st st1 : BufState) (r : Except BufErr Nat),
    allocBufAux fuel c st = some (st1, r) →
    st1.numBufs = st.numBufs ∧ st1.bufDescTable.length = st.bufDescTable.length ∧
    st1.hashTable = st.hashTable ∧ st1.htCapacity = st.htCapacity ∧
    st1.reads = st.reads ∧ st1.bufPool = st.bufPool ∧ st1.deletes = st.deletes ∧
    st1.storeNext = st.storeNext ∧
    ∀ i, (descAt st1 i).frameNo = (descAt st i).frameNo
  | 0, c, st, st1, r, h => by simp [allocBufAux] at h
  | fuel + 1, c, st, st1, r, h => by
      simp only [allocBufAux] at h
      split at h
      · obtain ⟨h1, h2⟩ := Prod.mk.injEq .. ▸ Option.some.inj h
        subst h1
        simp [advanceClock, descAt]
      · split at h
        · split at h
          · have ih := allocBufAux_pres fuel c _ st1 r h
            refine ⟨ih.1, ?_, ih.2.2.1, ih.2.2.2.1, ih.2.2.2.2.1, ih.2.2.2.2.2.1,
              ih.2.2.2.2.2.2.1, ih.2.2.2.2.2.2.2.1, ?_⟩
            · rw [ih.2.1]
              simp [descUpdate, advanceClock]
            · intro i
              rw [ih.2.2.2.2.2.2.2.2 i, descAt_descUpdate]
              split
              · next hc => rw [hc.1]
                           simp [advanceClock, descAt]
              · simp [advanceClock, descAt]
          · split at h
            · obtain ⟨h1, h2⟩ := Prod.mk.injEq .. ▸ Option.some.inj h
              subst h1
              constructor
              · split <;> simp [descUpdate, storeWritePage, advanceClock]
              constructor
              · split <;> simp [descUpdate, storeWritePage, advanceClock]
              constructor
              · split <;> simp [descUpdate, storeWritePage, advanceClock]
              constructor
              · split <;> simp [descUpdate, storeWritePage, advanceClock]
              constructor
              · split <;> simp [descUpdate, storeWritePage, advanceClock]
              constructor
              · split <;> simp [descUpdate, storeWritePage, advanceClock]
              constructor
              · split <;> simp [descUpdate, storeWritePage, advanceClock]
              constructor
              · split <;> simp [descUpdate, storeWritePage, advanceClock]
              · intro i
                split <;>
                  · rw [descAt_descUpdate]
                    split
                    · next hc =>
                        rw [hc.1]
                        simp [BufDesc.set, storeWritePage, advanceClock, descAt]
                    · simp [storeWritePage, advanceClock, descAt]
            · have ih := allocBufAux_pres fuel (c + 1) _ st1 r h
              refine ⟨ih.1, ih.2.1, ih.2.2.1, ih.2.2.2.1, ih.2.2.2.2.1, ih.2.2.2.2.2.1,
                ih.2.2.2.2.2.2.1, ih.2.2.2.2.2.2.2.1, ?_⟩
              intro i
              rw [ih.2.2.2.2.2.2.2.2 i]
              simp [advanceClock, descAt]
        · obtain ⟨h1, h2⟩ := Prod.mk.injEq .. ▸ Option.some.inj h
          subst h1
          simp [advanceClock, descAt]

theorem WF_advanceClock (st : BufState) (hwf : WF st) : WF (advanceClock st) := by
  obtain ⟨h1, h2, h3⟩ := hwf
  exact ⟨h1, h2, h3⟩

theorem WF_descUpdate (st : BufState) (i : Nat) (g : BufDesc → BufDesc)
    (hg : ∀ d, (g d).frameNo = d.frameNo) (hwf : WF st) : WF (descUpdate st i g) := by
  obtain ⟨h1, h2, h3⟩ := hwf
  refine ⟨h1, by simpa [descUpdate] using h2, ?_⟩
  intro j hj
  replace hj : j < st.numBufs := hj
  rw [descAt_descUpdate]
  split
  · next hc =>
      rw [hg, ← hc.1] at *
      exact h3 i (by omega)
  · exact h3 j hj

theorem advanceClock_clockHand_lt (st : BufState) (h : 0 < st.numBufs) :
    (advanceClock st).clockHand < st.numBufs :=
  Nat.mod_lt _ h

/-- What a successful sweep selects: there is a state `stSel` reached from the
start of the call by clearing refbits only, in which the returned frame is
either invalid (taken immediately, state unchanged) or a valid, refbit-clear,
unpinned victim (written back first when dirty, then re-`Set`). -/
theorem allocBufAux_ok_spec : ∀ (fuel c : Nat) (st st1 : BufState) (f : Nat),
    WF st → allocBufAux fuel c st = some (st1, .ok f) →
    ∃ stSel : BufState,
      descRefClearOnly st stSel ∧
      stSel.numBufs = st.numBufs ∧
      stSel.bufDescTable.length = st.bufDescTable.length ∧
      stSel.writes = st.writes ∧
      stSel.bufPool = st.bufPool ∧
      f < st.numBufs ∧
      (((descAt stSel f).valid = false ∧ st1 = stSel) ∨
       ((descAt stSel f).valid = true ∧ (descAt stSel f).refbit = false ∧
        (descAt stSel f).pinCnt = 0 ∧
        descAt st1 f = (descAt stSel f).set (descAt stSel f).file (descAt stSel f).pageNo ∧
        st1.writes = (if (descAt stSel f).dirty then
            stSel.writes ++ [((descAt stSel f).file.getD 0, (poolAt stSel f).page_number)]
          else stSel.writes)))
  | 0, c, st, st1, f, hwf, h => by simp [allocBufAux] at h
  | fuel + 1, c, st, st1, f, hwf, h => by
      have hhand : (advanceClock st).clockHand < st.numBufs :=
        advanceClock_clockHand_lt st hwf.1
      have hlen : st.bufDescTable.length = st.numBufs := hwf.2.1
      simp only [allocBufAux] at h
      split at h
      · exact absurd (congrArg Prod.snd (Option.some.inj h)) (by simp)
      · split at h
        · next hvalid =>
            split at h
            · next hrefbit =>
                have hwfMid : WF (descUpdate (advanceClock st) (advanceClock st).clockHand
                    (fun d1 => { d1 with refbit := false })) :=
                  WF_descUpdate _ _ _ (fun d => rfl) (WF_advanceClock st hwf)
                obtain ⟨stSel, hrc, hnb, hln, hwr, hbp, hflt, hdisj⟩ :=
                  allocBufAux_ok_spec fuel c _ st1 f hwfMid h
                refine ⟨stSel, ?_, ?_, ?_, ?_, ?_, ?_, hdisj⟩
                · refine descRefClearOnly_trans st _ stSel ?_ hrc
                  refine descRefClearOnly_trans st (advanceClock st) _
                    (descRefClearOnly_of_eq _ _ rfl) ?_
                  exact descRefClearOnly_clearStep (advanceClock st) _
                · exact hnb
                · rw [hln]
                  simp [descUpdate, advanceClock]
                · exact hwr
                · exact hbp
                · exact hflt
            · split at h
              · -- victim branch
                next hrefbit hpin =>
                obtain hpair := Option.some.inj h
                have hst1 : st1 = descUpdate
                    (if (descAt (advanceClock st) (advanceClock st).clockHand).dirty then
                       storeWritePage (advanceClock st)
                         ((descAt (advanceClock st) (advanceClock st).clockHand).file.getD 0)
                         (poolAt (advanceClock st) (advanceClock st).clockHand)
                     else advanceClock st)
                    (advanceClock st).clockHand
                    (fun d1 => d1.set (descAt (advanceClock st) (advanceClock st).clockHand).file
                       (descAt (advanceClock st) (advanceClock st).clockHand).pageNo) :=
                  (congrArg Prod.fst hpair).symm
                have hf : f = (descAt (advanceClock st) (advanceClock st).clockHand).frameNo := by
                  have := congrArg Prod.snd hpair
                  simpa using this.symm
                have hfr : (descAt (advanceClock st) (advanceClock st).clockHand).frameNo =
                    (advanceClock st).clockHand :=
                  hwf.2.2 _ hhand
                have hfeq : f = (advanceClock st).clockHand := by rw [hf, hfr]
                refine ⟨advanceClock st, descRefClearOnly_of_eq _ _ rfl, rfl, rfl, rfl, rfl,
                  by rw [hfeq]; exact hhand, Or.inr ?_⟩
                rw [hfeq]
                refine ⟨by simpa using hvalid, by simpa using hrefbit, hpin, ?_, ?_⟩
                · by_cases hdirty : (descAt (advanceClock st) (advanceClock st).clockHand).dirty = true
                  · rw [if_pos hdirty] at hst1
                    rw [hst1, descAt_descUpdate_self _ _ _
                      (by rw [storeWritePage_bufDescTable, advanceClock_bufDescTable, hlen]
                          exact hhand)]
                    rw [descAt_storeWritePage]
                  · rw [if_neg hdirty] at hst1
                    rw [hst1, descAt_descUpdate_self _ _ _
                      (by rw [advanceClock_bufDescTable, hlen]
                          exact hhand)]
                · by_cases hdirty : (descAt (advanceClock st) (advanceClock st).clockHand).dirty = true
                  · rw [if_pos hdirty] at hst1
                    rw [if_pos hdirty, hst1, descUpdate_writes, storeWritePage_writes]
                  · rw [if_neg hdirty] at hst1
                    rw [if_neg hdirty, hst1, descUpdate_writes]
              · -- pinned: recurse
                have hwfC : WF (advanceClock st) := WF_advanceClock st hwf
                obtain ⟨stSel, hrc, hnb, hln, hwr, hbp, hflt, hdisj⟩ :=
                  allocBufAux_ok_spec fuel (c + 1) _ st1 f hwfC h
                exact ⟨stSel, descRefClearOnly_trans st (advanceClock st) stSel
                  (descRefClearOnly_of_eq _ _ rfl) hrc, hnb, hln, hwr, hbp, hflt, hdisj⟩
        · next hvalid =>
            obtain hpair := Option.some.inj h
            have hst1 : st1 = advanceClock st := (congrArg Prod.fst hpair).symm
            have hf : f = (descAt (advanceClock st) (advanceClock st).clockHand).frameNo := by
              have := congrArg Prod.snd hpair
              simpa using this.symm
            have hfr : (descAt (advanceClock st) (advanceClock st).clockHand).frameNo =
                (advanceClock st).clockHand :=
              hwf.2.2 _ hhand
            have hfeq : f = (advanceClock st).clockHand := by rw [hf, hfr]
            refine ⟨advanceClock st, descRefClearOnly_of_eq _ _ rfl, rfl, rfl, rfl, rfl,
              by rw [hfeq]; exact hhand, Or.inl ⟨?_, hst1⟩⟩
            rw [hfeq]
            simpa using hvalid

/-- Preservation at the `allocBuf` level, including the fuel-exhaustion
fallback (which returns the state unchanged). -/
theorem allocBuf_pres (st st1 : BufState) (r : Except BufErr Nat)
    (h : allocBuf st = (st1, r)) :
    st1.numBufs = st.numBufs ∧ st1.bufDescTable.length = st.bufDescTable.length ∧
    st1.hashTable = st.hashTable ∧ st1.htCapacity = st.htCapacity ∧
    st1.reads = st.reads ∧ st1.bufPool = st.bufPool ∧ st1.deletes = st.deletes ∧
    st1.storeNext = st.storeNext ∧
    ∀ i, (descAt st1 i).frameNo = (descAt st i).frameNo := by
  rw [allocBuf] at h
  cases hA : allocBufAux (allocBufFuel st) 0 st with
  | none =>
      rw [hA] at h
      cases h
      exact ⟨rfl, rfl, rfl, rfl, rfl, rfl, rfl, rfl, fun i => rfl⟩
  | some pr =>
      rw [hA] at h
      subst h
      exact allocBufAux_pres _ _ _ _ _ hA

/-- Selection facts at the `allocBuf` level: a frame is only handed out by the
real sweep, never by the fuel fallback (which reports exhaustion). -/
theorem allocBuf_ok_spec (st st1 : BufState) (f : Nat) (hwf : WF st)
    (h : allocBuf st = (st1, .ok f)) :
    ∃ stSel : BufState,
      descRefClearOnly st stSel ∧
      stSel.numBufs = st.numBufs ∧
      stSel.bufDescTable.length = st.bufDescTable.length ∧
      stSel.writes = st.writes ∧
      stSel.bufPool = st.bufPool ∧
      f < st.numBufs ∧
      (((descAt stSel f).valid = false ∧ st1 = stSel) ∨
       ((descAt stSel f).valid = true ∧ (descAt stSel f).refbit = false ∧
        (descAt stSel f).pinCnt = 0 ∧
        descAt st1 f = (descAt stSel f).set (descAt stSel f).file (descAt stSel f).pageNo ∧
        st1.writes = (if (descAt stSel f).dirty then
            stSel.writes ++ [((descAt stSel f).file.getD 0, (poolAt stSel f).page_number)]
          else stSel.writes))) := by
  rw [allocBuf] at h
  cases hA : allocBufAux (allocBufFuel st) 0 st with
  | none =>
      rw [hA] at h
      exact absurd (congrArg Prod.snd h) (by simp)
  | some pr =>
      rw [hA] at h
      subst h
      exact allocBufAux_ok_spec _ _ _ _ _ hwf hA

/-! ### Claim theorems about the clock allocator -/

/-- C5: the clock allocator never selects a frame with `pinCnt > 0`, and never
selects a valid frame whose refbit was set without first clearing it and
moving on: any frame a successful `allocBuf` returns was unpinned-or-invalid
at the start of the call, and in the selection-time state (reached from the
start of the call by clearing refbits only) it is either invalid or valid with
`refbit = false` and `pinCnt = 0`. -/
theorem clock_victim_safe (st st1 : BufState) (f : Nat) (hwf : WF st)
    (h : allocBuf st = (st1, .ok f)) :
    ((descAt st f).valid = false ∨ (descAt st f).pinCnt = 0) ∧
    ∃ stSel : BufState, descRefClearOnly st stSel ∧
      ((descAt stSel f).valid = false ∨
       ((descAt stSel f).valid = true ∧ (descAt stSel f).refbit = false ∧
        (descAt stSel f).pinCnt = 0)) := by
  obtain ⟨stSel, hrc, _, _, _, _, _, hdisj⟩ := allocBuf_ok_spec st st1 f hwf h
  have hfields := descRefClearOnly_fields st stSel hrc f
  rcases hdisj with ⟨hv, _⟩ | ⟨hv, hr, hp, _, _⟩
  · exact ⟨Or.inl (by rw [← hfields.1, hv]), stSel, hrc, Or.inl hv⟩
  · exact ⟨Or.inr (by rw [← hfields.2.1, hp]), stSel, hrc, Or.inr ⟨hv, hr, hp⟩⟩

theorem clock_victim_safe_witness :
    WF stDirty ∧
    allocBuf stDirty = ((allocBuf stDirty).1, Except.ok 0) ∧
    ((descAt stDirty 0).valid = false ∨ (descAt stDirty 0).pinCnt = 0) :=
  ⟨⟨by decide, by decide, by decide⟩, by decide,
   (clock_victim_safe stDirty (allocBuf stDirty).1 0
      ⟨by decide, by decide, by decide⟩ (by decide)).1⟩

/-- C7: if the selected victim was valid and dirty at selection time, exactly
one write of that page to the page store occurs (logged once in `writes`,
carrying the victim's file and the pool slot's embedded page number) and the
victim's dirty bit ends cleared; for a victim that is invalid or clean, no
page-store write occurs.  Validity and dirtiness of the returned frame are
unchanged between the start of the call and selection time, so they are stated
on the initial state. -/
theorem allocBuf_writeback (st st1 : BufState) (f : Nat) (hwf : WF st)
    (h : allocBuf st = (st1, .ok f)) :
    ((descAt st f).valid = true → (descAt st f).dirty = true →
       st1.writes = st.writes ++ [((descAt st f).file.getD 0, (poolAt st f).page_number)] ∧
       (descAt st1 f).dirty = false) ∧
    (((descAt st f).valid = false ∨ (descAt st f).dirty = false) →
       st1.writes = st.writes) := by
  obtain ⟨stSel, hrc, _, _, hwr, hbp, _, hdisj⟩ := allocBuf_ok_spec st st1 f hwf h
  have hfields := descRefClearOnly_fields st stSel hrc f
  have hpool : poolAt stSel f = poolAt st f := by simp [poolAt, hbp]
  rcases hdisj with ⟨hv, hst1⟩ | ⟨hv, hr, hp, hdesc, hwrites⟩
  · constructor
    · intro hval _
      rw [← hfields.1, hv] at hval
      cases hval
    · intro _
      rw [hst1, hwr]
  · constructor
    · intro hval hdirty
      have hds : (descAt stSel f).dirty = true := by rw [hfields.2.2.1, hdirty]
      constructor
      · rw [hwrites, if_pos hds, hwr, hfields.2.2.2.1, hpool]
      · rw [hdesc]
        rfl
    · intro hOr
      rcases hOr with hval | hdirty
      · rw [← hfields.1, hv] at hval
        cases hval
      · have hds : (descAt stSel f).dirty = false := by rw [hfields.2.2.1, hdirty]
        rw [hwrites, if_neg (by rw [hds]; exact Bool.false_ne_true), hwr]

theorem allocBuf_writeback_witness :
    WF stDirty ∧
    allocBuf stDirty = ((allocBuf stDirty).1, Except.ok 0) ∧
    (descAt stDirty 0).valid = true ∧ (descAt stDirty 0).dirty = true ∧
    ((allocBuf stDirty).1.writes =
        stDirty.writes ++ [((descAt stDirty 0).file.getD 0, (poolAt stDirty 0).page_number)] ∧
     (descAt (allocBuf stDirty).1 0).dirty = false) :=
  ⟨⟨by decide, by decide, by decide⟩, by decide, by decide, by decide,
   (allocBuf_writeback stDirty (allocBuf stDirty).1 0
      ⟨by decide, by decide, by decide⟩ (by decide)).1 (by decide) (by decide)⟩

/-- C4: on an index hit, `readPage` increments the frame's pin count, sets its
refbit, returns a handle to that frame's pool slot, and performs no page-store
read; on an index miss that completes successfully, exactly one page-store
read occurs, the entry `(file, pageNo) → frame` is in the index, and the
frame's descriptor is set up with `valid = true`, `fileRef = file`,
`pageNo = pageNo`, `pinCnt = 1`, `refbit = true`, `dirty = false`. -/
theorem readPage_spec (st st1 : BufState) (file pageNo f : Nat) (hwf : WF st)
    (hht : ∀ k fr, (k, fr) ∈ st.hashTable → fr < st.numBufs)
    (h : readPage st file pageNo = (st1, .ok f)) :
    (∀ f0, htLookup st.hashTable file pageNo = some f0 →
        f = f0 ∧ st1.reads = st.reads ∧
        (descAt st1 f).pinCnt = (descAt st f).pinCnt + 1 ∧
        (descAt st1 f).refbit = true) ∧
    (htLookup st.hashTable file pageNo = none →
        st1.reads = st.reads ++ [(file, pageNo)] ∧
        htLookup st1.hashTable file pageNo = some f ∧
        (descAt st1 f).valid = true ∧ (descAt st1 f).file = some file ∧
        (descAt st1 f).pageNo = pageNo ∧ (descAt st1 f).pinCnt = 1 ∧
        (descAt st1 f).refbit = true ∧ (descAt st1 f).dirty = false) := by
  cases hLk : htLookup st.hashTable file pageNo with
  | some f0 =>
      simp only [readPage, hLk] at h
      have hf : f = f0 := by
        have := congrArg Prod.snd h
        simpa using this.symm
      have hst1 : st1 =
          descUpdate st f0 (fun d => { d with pinCnt := d.pinCnt + 1, refbit := true }) :=
        (congrArg Prod.fst h).symm
      have hlt : f0 < st.bufDescTable.length := by
        rw [hwf.2.1]
        exact hht _ _ (htLookup_mem _ _ _ _ hLk)
      constructor
      · intro f0' hf0'
        obtain rfl := Option.some.inj hf0'
        exact ⟨hf, by rw [hst1, descUpdate_reads],
          by rw [hf, hst1, descAt_descUpdate_self _ _ _ hlt],
          by rw [hf, hst1, descAt_descUpdate_self _ _ _ hlt]⟩
      · intro hnone
        cases hnone
  | none =>
      simp only [readPage, hLk] at h
      cases hAB : allocBuf st with
      | mk stA r =>
      rw [hAB] at h
      cases r with
      | error e => exact absurd (congrArg Prod.snd h) (by simp)
      | ok fId =>
        obtain ⟨hnb, hln, hhtA, hcap, hrd, hbp, hdel, hnx, hfrm⟩ := allocBuf_pres st stA _ hAB
        obtain ⟨wSel, hw1, hw2, hw3, hw4, hw5, hflt, hw6⟩ := allocBuf_ok_spec st stA fId hwf hAB
        split at h
        · exact absurd (congrArg Prod.snd h) (by simp)
        · rename_i xq stq pgq heqq
          injection heqq with he1 he2
          injection he2 with he2
          subst he1
          subst he2
          split at h
          · exact absurd (congrArg Prod.snd h) (by simp)
          · next stB pgB heq =>
              cases hms : htLookup stA.storePages file pageNo with
              | none => simp [storeReadPage, hms] at heq
              | some dat =>
                simp only [storeReadPage, hms] at heq
                injection heq with heq1 heq2
                injection heq2 with heq2
                subst heq1
                subst heq2
                have hhtEq : (poolSet { stA with reads := stA.reads ++ [(file, pageNo)] } fId
                    { page_number := pageNo, data := dat }).hashTable = st.hashTable := hhtA
                have hcapEq : (poolSet { stA with reads := stA.reads ++ [(file, pageNo)] } fId
                    { page_number := pageNo, data := dat }).htCapacity = st.htCapacity := hcap
                split at h
                · exact absurd (congrArg Prod.snd h) (by simp)
                · next ht heq2 =>
                    rw [hhtEq, hcapEq] at heq2
                    by_cases hcaplt : st.hashTable.length < st.htCapacity
                    · have hins : htInsert st.hashTable st.htCapacity file pageNo fId =
                          .ok (((file, pageNo), fId) :: st.hashTable) := by
                        simp [htInsert, hLk, hcaplt]
                      rw [hins] at heq2
                      obtain rfl : ((file, pageNo), fId) :: st.hashTable = ht :=
                        Except.ok.inj heq2
                      injection h with hI1 hI2
                      injection hI2 with hI2
                      subst hI2
                      subst hI1
                      have hltA : fId < stA.bufDescTable.length := by
                        rw [hln, hwf.2.1]
                        exact hflt
                      constructor
                      · intro f0 hf0
                        cases hf0
                      · intro _
                        refine ⟨?_, ?_, ?_, ?_, ?_, ?_, ?_, ?_⟩
                        · rw [descUpdate_reads]
                          show stA.reads ++ [(file, pageNo)] = st.reads ++ [(file, pageNo)]
                          rw [hrd]
                        · rw [descUpdate_hashTable]
                          show htLookup (((file, pageNo), fId) :: st.hashTable) file pageNo =
                            some fId
                          simp [htLookup]
                        · rw [descAt_descUpdate, if_pos ⟨rfl, hltA⟩]
                          rfl
                        · rw [descAt_descUpdate, if_pos ⟨rfl, hltA⟩]
                          rfl
                        · rw [descAt_descUpdate, if_pos ⟨rfl, hltA⟩]
                          rfl
                        · rw [descAt_descUpdate, if_pos ⟨rfl, hltA⟩]
                          rfl
                        · rw [descAt_descUpdate, if_pos ⟨rfl, hltA⟩]
                          rfl
                        · rw [descAt_descUpdate, if_pos ⟨rfl, hltA⟩]
                          rfl
                    · have hins : htInsert st.hashTable st.htCapacity file pageNo fId =
                          .error .indexCapacity := by
                        simp [htInsert, hLk, hcaplt]
                      rw [hins] at heq2
                      cases heq2

theorem readPage_spec_witness :
    WF stTrace0 ∧ readPage stTrace0 0 1 = (stTrace1, Except.ok 0) ∧
    htLookup stTrace0.hashTable 0 1 = none ∧
    (stTrace1.reads = stTrace0.reads ++ [(0, 1)] ∧
     htLookup stTrace1.hashTable 0 1 = some 0 ∧
     (descAt stTrace1 0).valid = true ∧ (descAt stTrace1 0).file = some 0 ∧
     (descAt stTrace1 0).pageNo = 1 ∧ (descAt stTrace1 0).pinCnt = 1 ∧
     (descAt stTrace1 0).refbit = true ∧ (descAt stTrace1 0).dirty = false) :=
  ⟨⟨by decide, by decide, by decide⟩, by decide, by decide,
   (readPage_spec stTrace0 stTrace1 0 1 0 ⟨by decide, by decide, by decide⟩
      (by intro k fr hmem
          simp [stTrace0, mkBufState] at hmem)
      (by decide)).2 (by decide)⟩

/-- C6: `unPinPage` on an absent key is a no-op returning no error; on a
present key with `pinCnt = 0` it fails with `PageNotPinned` changing nothing;
otherwise it decrements the pin count by exactly one, sets `dirty` to
`markDirty || dirty` (so it never clears the dirty bit), and touches no other
frame and no other component. -/
theorem unPinPage_spec (st : BufState) (file pageNo : Nat) (md : Bool) :
    (htLookup st.hashTable file pageNo = none → unPinPage st file pageNo md = (st, none)) ∧
    (∀ fr, htLookup st.hashTable file pageNo = some fr →
       ((descAt st fr).pinCnt = 0 →
          unPinPage st file pageNo md = (st, some .pageNotPinned)) ∧
       ((descAt st fr).pinCnt ≠ 0 → fr < st.bufDescTable.length →
          (unPinPage st file pageNo md).2 = none ∧
          (descAt (unPinPage st file pageNo md).1 fr).pinCnt + 1 = (descAt st fr).pinCnt ∧
          (descAt (unPinPage st file pageNo md).1 fr).dirty = (md || (descAt st fr).dirty) ∧
          (∀ j, j ≠ fr → descAt (unPinPage st file pageNo md).1 j = descAt st j) ∧
          (unPinPage st file pageNo md).1.hashTable = st.hashTable ∧
          (unPinPage st file pageNo md).1.reads = st.reads ∧
          (unPinPage st file pageNo md).1.writes = st.writes)) := by
  constructor
  · intro hLk
    simp [unPinPage, hLk]
  · intro fr hLk
    constructor
    · intro hp
      simp [unPinPage, hLk, hp]
    · intro hp hlt
      simp only [unPinPage, hLk]
      rw [if_neg hp]
      refine ⟨rfl, ?_, ?_, ?_, rfl, rfl, rfl⟩
      · show (descAt (descUpdate st fr _) fr).pinCnt + 1 = (descAt st fr).pinCnt
        rw [descAt_descUpdate_self _ _ _ hlt]
        show (descAt st fr).pinCnt - 1 + 1 = (descAt st fr).pinCnt
        omega
      · show (descAt (descUpdate st fr _) fr).dirty = (md || (descAt st fr).dirty)
        rw [descAt_descUpdate_self _ _ _ hlt]
        show (if md then true else (descAt st fr).dirty) = (md || (descAt st fr).dirty)
        cases md <;> simp
      · intro j hj
        exact descAt_descUpdate_ne st fr j _ (Ne.symm hj)

theorem unPinPage_spec_witness :
    htLookup stTrace1.hashTable 0 1 = some 0 ∧
    (descAt stTrace1 0).pinCnt ≠ 0 ∧ 0 < stTrace1.bufDescTable.length ∧
    ((unPinPage stTrace1 0 1 true).2 = none ∧
     (descAt (unPinPage stTrace1 0 1 true).1 0).pinCnt + 1 = (descAt stTrace1 0).pinCnt ∧
     (descAt (unPinPage stTrace1 0 1 true).1 0).dirty = (true || (descAt stTrace1 0).dirty) ∧
     (∀ j, j ≠ 0 → descAt (unPinPage stTrace1 0 1 true).1 j = descAt stTrace1 j) ∧
     (unPinPage stTrace1 0 1 true).1.hashTable = stTrace1.hashTable ∧
     (unPinPage stTrace1 0 1 true).1.reads = stTrace1.reads ∧
     (unPinPage stTrace1 0 1 true).1.writes = stTrace1.writes) :=
  ⟨by decide, by decide, by decide,
   ((unPinPage_spec stTrace1 0 1 true).2 0 (by decide)).2 (by decide) (by decide)⟩

/-- C1: the claim fails on the code (code bug).  After fetching page (0, 1)
into the one-frame pool, unpinning it and fetching page (0, 2), the evicted
page's index entry `(0, 1) → 0` is still present although no frame is valid
for (0, 1) — `BufMgr::allocBuf` never removes the victim's hash-table entry —
so fetching (0, 1) again is an index hit that performs zero page-store reads
and returns the frame now holding page (0, 2). -/
theorem eviction_keeps_stale_index_entry :
    htLookup stTrace3.hashTable 0 1 = some 0 ∧
    (∀ i, i < stTrace3.numBufs →
       ¬((descAt stTrace3 i).valid = true ∧ (descAt stTrace3 i).file = some 0 ∧
         (descAt stTrace3 i).pageNo = 1)) ∧
    (descAt stTrace3 0).valid = true ∧ (descAt stTrace3 0).pageNo = 2 ∧
    readPage stTrace3 0 1 = ((readPage stTrace3 0 1).1, .ok 0) ∧
    (readPage stTrace3 0 1).1.reads = stTrace3.reads :=
  ⟨by decide, by decide, by decide, by decide, by decide, by decide⟩

/-- C2: the claim fails on the code (code bug).  In the two-frame pool state
`stTwo5`, frame 1 is valid with `pinCnt = 0` (only its refbit is set), yet
`readPage` of the absent page (0, 4) raises `BufferExceeded`: the sweep
counter counts repeated encounters of pinned frame 0 across passes and
reaches `numBufs` before re-examining frame 1.  The last conjunct shows the
sweep itself produced the error (not the fuel fallback). -/
theorem bufferExceeded_with_unpinned_frame :
    (descAt stTwo5 1).valid = true ∧ (descAt stTwo5 1).pinCnt = 0 ∧
    htLookup stTwo5.hashTable 0 4 = none ∧
    readPage stTwo5 0 4 = ((readPage stTwo5 0 4).1, .error .bufferExceeded) ∧
    allocBufAux (allocBufFuel stTwo5) 0 stTwo5 =
      some ((readPage stTwo5 0 4).1, .error .bufferExceeded) :=
  ⟨by decide, by decide, by decide, by decide, by decide⟩

/-- C10: `disposePage` never writes a page to the page store — the write log
is unchanged for every state, file and page, dirty or not (the in-memory
modifications are discarded). -/
theorem disposePage_no_write (st : BufState) (file pageNo : Nat) :
    (disposePage st file pageNo).writes = st.writes := by
  cases hLk : htLookup st.hashTable file pageNo <;>
    simp [disposePage, hLk, storeDeletePage, descUpdate]

/-! ### Flush: per-frame outcome lemmas and loop inductions -/

theorem flushOne_skip (f i : Nat) (st : BufState)
    (hm : ¬(descAt st i).file = some f) : flushOne f i st = (st, none) := by
  simp [flushOne, hm]

theorem flushOne_bad (f i : Nat) (st : BufState)
    (hm : (descAt st i).file = some f) (hv : (descAt st i).valid = false) :
    flushOne f i st = (st, some .badBuffer) := by
  simp [flushOne, hm, hv]

theorem flushOne_pinned (f i : Nat) (st : BufState)
    (hm : (descAt st i).file = some f) (hv : (descAt st i).valid = true)
    (hp : 1 ≤ (descAt st i).pinCnt) :
    flushOne f i st = (st, some .pagePinned) := by
  simp [flushOne, hm, hv, hp]

/-- Observable effect of one successful flush iteration at a matching, valid,
unpinned frame: the frame is cleared, its index entry removed, its page
written back exactly once when dirty, and nothing else changes. -/
theorem flushOne_processed (f i : Nat) (st : BufState)
    (hm : (descAt st i).file = some f) (hv : (descAt st i).valid = true)
    (hp : (descAt st i).pinCnt = 0) (hlt : i < st.bufDescTable.length) :
    (flushOne f i st).2 = none ∧
    (descAt (flushOne f i st).1 i).valid = false ∧
    (descAt (flushOne f i st).1 i).file = none ∧
    (∀ j, j ≠ i → descAt (flushOne f i st).1 j = descAt st j) ∧
    (flushOne f i st).1.hashTable = htRemove st.hashTable f (descAt st i).pageNo ∧
    (flushOne f i st).1.writes = st.writes ++
      (if (descAt st i).dirty = true then [(f, (poolAt st i).page_number)] else []) ∧
    (flushOne f i st).1.reads = st.reads ∧
    (flushOne f i st).1.numBufs = st.numBufs ∧
    (flushOne f i st).1.bufDescTable.length = st.bufDescTable.length ∧
    (flushOne f i st).1.bufPool = st.bufPool ∧
    (flushOne f i st).1.deletes = st.deletes := by
  have hnv : ¬((descAt st i).valid = false) := by simp [hv]
  have hnp : ¬(1 ≤ (descAt st i).pinCnt) := by omega
  by_cases hd : (descAt st i).dirty = true
  · simp only [flushOne]
    rw [if_pos hm, if_neg hnv, if_neg hnp, if_pos hd]
    refine ⟨rfl, ?_, ?_, ?_, rfl, ?_, rfl, rfl, ?_, rfl, rfl⟩
    · rw [descAt_descUpdate, if_pos ⟨rfl, by simpa [descUpdate, storeWritePage] using hlt⟩]
      rfl
    · rw [descAt_descUpdate, if_pos ⟨rfl, by simpa [descUpdate, storeWritePage] using hlt⟩]
      rfl
    · intro j hj
      rw [descAt_descUpdate_ne _ _ _ _ (Ne.symm hj), descAt_setHashTable,
        descAt_descUpdate_ne _ _ _ _ (Ne.symm hj), descAt_storeWritePage]
    · rw [hm, if_pos hd]
      simp [descUpdate, storeWritePage]
    · simp [descUpdate, storeWritePage]
  · simp only [flushOne]
    rw [if_pos hm, if_neg hnv, if_neg hnp, if_neg hd]
    refine ⟨rfl, ?_, ?_, ?_, rfl, by
      simp only [descUpdate, List.append_nil]
      rw [if_neg hd]
      simp, rfl, rfl, ?_, rfl, rfl⟩
    · rw [descAt_descUpdate, if_pos ⟨rfl, hlt⟩]
      rfl
    · rw [descAt_descUpdate, if_pos ⟨rfl, hlt⟩]
      rfl
    · intro j hj
      rw [descAt_descUpdate_ne _ _ _ _ (Ne.symm hj), descAt_setHashTable]
    · simp [descUpdate]

theorem poolAt_congr (st1 st2 : BufState) (h : st1.bufPool = st2.bufPool) (j : Nat) :
    poolAt st1 j = poolAt st2 j := by
  simp [poolAt, h]

/-- The flush loop under the success conditions: every frame of `f` in the
index-consistent pool gets cleared (written back once first when dirty), every
index entry of `f` is removed, and everything else is untouched. -/
theorem flushFrames_ok (f : Nat) : ∀ (l : List Nat) (st : BufState),
    l.Nodup →
    (∀ i, i ∈ l → i < st.bufDescTable.length) →
    (∀ i, i ∈ l → (descAt st i).file = some f →
        (descAt st i).valid = true ∧ (descAt st i).pinCnt = 0) →
    (∀ p fr, htLookup st.hashTable f p = some fr →
        fr ∈ l ∧ (descAt st fr).file = some f ∧ (descAt st fr).pageNo = p) →
    (flushFrames f l st).2 = none ∧
    (∀ i, i ∈ l → (descAt st i).file = some f →
        (descAt (flushFrames f l st).1 i).valid = false ∧
        (descAt (flushFrames f l st).1 i).file = none) ∧
    (∀ i, i ∈ l → ¬(descAt st i).file = some f →
        descAt (flushFrames f l st).1 i = descAt st i) ∧
    (∀ i, i ∉ l → descAt (flushFrames f l st).1 i = descAt st i) ∧
    (∀ p, htLookup (flushFrames f l st).1.hashTable f p = none) ∧
    (flushFrames f l st).1.writes = st.writes ++ l.filterMap (fun j =>
        if (descAt st j).file = some f ∧ (descAt st j).dirty = true then
          some (f, (poolAt st j).page_number) else none) ∧
    (flushFrames f l st).1.reads = st.reads ∧
    (flushFrames f l st).1.numBufs = st.numBufs ∧
    (flushFrames f l st).1.bufDescTable.length = st.bufDescTable.length ∧
    (flushFrames f l st).1.bufPool = st.bufPool
  | [], st, hnd, hbnd, hmat, hcons => by
      refine ⟨rfl, by simp, by simp, fun i _ => rfl, ?_, by simp [flushFrames], rfl, rfl,
        rfl, rfl⟩
      intro p
      cases hLk : htLookup st.hashTable f p with
      | none => exact hLk
      | some fr => exact absurd (hcons p fr hLk).1 (List.not_mem_nil fr)
  | i :: rest, st, hnd, hbnd, hmat, hcons => by
      have hndr : rest.Nodup := (List.nodup_cons.mp hnd).2
      have hni : i ∉ rest := (List.nodup_cons.mp hnd).1
      by_cases hm : (descAt st i).file = some f
      · obtain ⟨hv, hp⟩ := hmat i (List.mem_cons_self i rest) hm
        have hlt : i < st.bufDescTable.length := hbnd i (List.mem_cons_self i rest)
        obtain ⟨hz2, hzval, hzfile, hzo, hzht, hzwr, hzrd, hznb, hzln, hzbp, hzdel⟩ :=
          flushOne_processed f i st hm hv hp hlt
        have hFO : flushOne f i st = ((flushOne f i st).1, none) := by
          rw [← hz2]
        have hstep : flushFrames f (i :: rest) st =
            flushFrames f rest (flushOne f i st).1 := by
          simp only [flushFrames]
          rw [hFO]
        have hbnd2 : ∀ j, j ∈ rest → j < (flushOne f i st).1.bufDescTable.length := by
          intro j hj
          rw [hzln]
          exact hbnd j (List.mem_cons_of_mem _ hj)
        have hdesc2 : ∀ j, j ∈ rest → descAt (flushOne f i st).1 j = descAt st j := by
          intro j hj
          exact hzo j (fun he => hni (he ▸ hj))
        have hmat2 : ∀ j, j ∈ rest → (descAt (flushOne f i st).1 j).file = some f →
            (descAt (flushOne f i st).1 j).valid = true ∧
            (descAt (flushOne f i st).1 j).pinCnt = 0 := by
          intro j hj hfj
          rw [hdesc2 j hj] at hfj ⊢
          exact hmat j (List.mem_cons_of_mem _ hj) hfj
        have hcons2 : ∀ p fr, htLookup (flushOne f i st).1.hashTable f p = some fr →
            fr ∈ rest ∧ (descAt (flushOne f i st).1 fr).file = some f ∧
            (descAt (flushOne f i st).1 fr).pageNo = p := by
          intro p fr hLk
          rw [hzht] at hLk
          by_cases hpq : p = (descAt st i).pageNo
          · rw [hpq, htLookup_htRemove_self] at hLk
            cases hLk
          · rw [htLookup_htRemove_ne _ _ _ _ _ (by simp [hpq])] at hLk
            obtain ⟨hmem, hfile, hpage⟩ := hcons p fr hLk
            have hfi : fr ≠ i := by
              intro he
              subst he
              exact hpq hpage.symm
            have hfr : fr ∈ rest := by
              rcases List.mem_cons.mp hmem with he | hr
              · exact absurd he hfi
              · exact hr
            rw [hdesc2 fr hfr]
            exact ⟨hfr, hfile, hpage⟩
        obtain ⟨ih1, ih2, ih3, ih4, ih5, ih6, ih7, ih8, ih9, ih10⟩ :=
          flushFrames_ok f rest (flushOne f i st).1 hndr hbnd2 hmat2 hcons2
        rw [hstep]
        refine ⟨ih1, ?_, ?_, ?_, ih5, ?_, ?_, ?_, ?_, ?_⟩
        · intro j hj hfj
          rcases List.mem_cons.mp hj with he | hr
          · subst he
            rw [ih4 j hni]
            exact ⟨hzval, hzfile⟩
          · exact ih2 j hr (by rw [hdesc2 j hr]; exact hfj)
        · intro j hj hfj
          rcases List.mem_cons.mp hj with he | hr
          · subst he
            exact absurd hm hfj
          · rw [ih3 j hr (by rw [hdesc2 j hr]; exact hfj), hdesc2 j hr]
        · intro j hj
          have hji : j ≠ i := fun he => hj (he ▸ List.mem_cons_self i rest)
          have hjr : j ∉ rest := fun hr => hj (List.mem_cons_of_mem _ hr)
          rw [ih4 j hjr, hzo j hji]
        · rw [ih6, hzwr]
          have hcong : rest.filterMap (fun j =>
              if (descAt (flushOne f i st).1 j).file = some f ∧
                 (descAt (flushOne f i st).1 j).dirty = true then
                some (f, (poolAt (flushOne f i st).1 j).page_number) else none) =
              rest.filterMap (fun j =>
              if (descAt st j).file = some f ∧ (descAt st j).dirty = true then
                some (f, (poolAt st j).page_number) else none) := by
            apply List.filterMap_congr
            intro j hj
            rw [hdesc2 j hj, poolAt_congr _ st hzbp j]
          rw [hcong, List.filterMap_cons]
          by_cases hdty : (descAt st i).dirty = true
          · rw [if_pos hdty]
            have : (if (descAt st i).file = some f ∧ (descAt st i).dirty = true then
                some (f, (poolAt st i).page_number) else none) =
                some (f, (poolAt st i).page_number) := if_pos ⟨hm, hdty⟩
            rw [this]
            simp
          · rw [if_neg hdty]
            have : (if (descAt st i).file = some f ∧ (descAt st i).dirty = true then
                some (f, (poolAt st i).page_number) else none) = none :=
              if_neg (fun hc => hdty hc.2)
            rw [this]
            simp
        · rw [ih7, hzrd]
        · rw [ih8, hznb]
        · rw [ih9, hzln]
        · rw [ih10, hzbp]
      · have hFO : flushOne f i st = (st, none) := flushOne_skip f i st hm
        have hstep : flushFrames f (i :: rest) st = flushFrames f rest st := by
          simp only [flushFrames]
          rw [hFO]
        have hbnd2 : ∀ j, j ∈ rest → j < st.bufDescTable.length :=
          fun j hj => hbnd j (List.mem_cons_of_mem _ hj)
        have hmat2 : ∀ j, j ∈ rest → (descAt st j).file = some f →
            (descAt st j).valid = true ∧ (descAt st j).pinCnt = 0 :=
          fun j hj => hmat j (List.mem_cons_of_mem _ hj)
        have hcons2 : ∀ p fr, htLookup st.hashTable f p = some fr →
            fr ∈ rest ∧ (descAt st fr).file = some f ∧ (descAt st fr).pageNo = p := by
          intro p fr hLk
          obtain ⟨hmem, hfile, hpage⟩ := hcons p fr hLk
          have hfi : fr ≠ i := by
            intro he
            subst he
            exact hm hfile
          have hfr : fr ∈ rest := by
            rcases List.mem_cons.mp hmem with he | hr
            · exact absurd he hfi
            · exact hr
          exact ⟨hfr, hfile, hpage⟩
        obtain ⟨ih1, ih2, ih3, ih4, ih5, ih6, ih7, ih8, ih9, ih10⟩ :=
          flushFrames_ok f rest st hndr hbnd2 hmat2 hcons2
        rw [hstep]
        refine ⟨ih1, ?_, ?_, ?_, ih5, ?_, ih7, ih8, ih9, ih10⟩
        · intro j hj hfj
          rcases List.mem_cons.mp hj with he | hr
          · subst he
            exact absurd hfj hm
          · exact ih2 j hr hfj
        · intro j hj hfj
          rcases List.mem_cons.mp hj with he | hr
          · subst he
            exact ih4 j hni
          · exact ih3 j hr hfj
        · intro j hj
          exact ih4 j (fun hr => hj (List.mem_cons_of_mem _ hr))
        · rw [ih6, List.filterMap_cons]
          have : (if (descAt st i).file = some f ∧ (descAt st i).dirty = true then
              some (f, (poolAt st i).page_number) else none) = none :=
            if_neg (fun hc => hm hc.1)
          rw [this]

/-- The flush loop when it aborts with `PagePinned`: the loop stopped at the
first matching pinned frame, matching frames before it in order have been
flushed (their dirty pages written) and cleared, and frames outside the list
are untouched.  The write log only ever grows. -/
theorem flushFrames_pinned (f : Nat) : ∀ (l : List Nat) (st : BufState),
    l.Nodup →
    (∀ i, i ∈ l → i < st.bufDescTable.length) →
    (flushFrames f l st).2 = some .pagePinned →
    (∃ l1 j l2, l = l1 ++ j :: l2 ∧
       (descAt st j).file = some f ∧ (descAt st j).valid = true ∧
       1 ≤ (descAt st j).pinCnt ∧
       (∀ i, i ∈ l1 → (descAt st i).file = some f →
          (descAt (flushFrames f l st).1 i).valid = false ∧
          ((descAt st i).dirty = true →
             (f, (poolAt st i).page_number) ∈ (flushFrames f l st).1.writes))) ∧
    (∃ ws, (flushFrames f l st).1.writes = st.writes ++ ws) ∧
    (∀ i, i ∉ l → descAt (flushFrames f l st).1 i = descAt st i)
  | [], st, hnd, hbnd, herr => by
      exact absurd herr (by simp [flushFrames])
  | i :: rest, st, hnd, hbnd, herr => by
      have hndr : rest.Nodup := (List.nodup_cons.mp hnd).2
      have hni : i ∉ rest := (List.nodup_cons.mp hnd).1
      by_cases hm : (descAt st i).file = some f
      · by_cases hv : (descAt st i).valid = true
        · by_cases hp1 : 1 ≤ (descAt st i).pinCnt
          · have hFO := flushOne_pinned f i st hm hv hp1
            have hres : flushFrames f (i :: rest) st = (st, some .pagePinned) := by
              simp only [flushFrames]
              rw [hFO]
            rw [hres]
            exact ⟨⟨[], i, rest, rfl, hm, hv, hp1, by simp⟩, ⟨[], by simp⟩,
              fun j hj => rfl⟩
          · have hp0 : (descAt st i).pinCnt = 0 := by omega
            have hlt := hbnd i (List.mem_cons_self i rest)
            obtain ⟨hz2, hzval, hzfile, hzo, hzht, hzwr, hzrd, hznb, hzln, hzbp, hzdel⟩ :=
              flushOne_processed f i st hm hv hp0 hlt
            have hFO : flushOne f i st = ((flushOne f i st).1, none) := by
              rw [← hz2]
            have hstep : flushFrames f (i :: rest) st =
                flushFrames f rest (flushOne f i st).1 := by
              simp only [flushFrames]
              rw [hFO]
            rw [hstep] at herr ⊢
            have hbnd2 : ∀ j, j ∈ rest → j < (flushOne f i st).1.bufDescTable.length := by
              intro j hj
              rw [hzln]
              exact hbnd j (List.mem_cons_of_mem _ hj)
            have hdesc2 : ∀ j, j ∈ rest → descAt (flushOne f i st).1 j = descAt st j := by
              intro j hj
              exact hzo j (fun he => hni (he ▸ hj))
            obtain ⟨⟨l1, j, l2, hsplit, hjf, hjv, hjp, hpre⟩, ⟨ws, hws⟩, hout⟩ :=
              flushFrames_pinned f rest (flushOne f i st).1 hndr hbnd2 herr
            have hjr : j ∈ rest := by
              rw [hsplit]
              exact List.mem_append_right _ (List.mem_cons_self _ _)
            have hjeq := hdesc2 j hjr
            refine ⟨⟨i :: l1, j, l2, by rw [hsplit]; rfl, by rw [← hjeq]; exact hjf,
              by rw [← hjeq]; exact hjv, by rw [← hjeq]; exact hjp, ?_⟩,
              ⟨(if (descAt st i).dirty = true then [(f, (poolAt st i).page_number)]
                  else []) ++ ws, by rw [hws, hzwr, List.append_assoc]⟩, ?_⟩
            · intro i1 hi1 hf1
              rcases List.mem_cons.mp hi1 with he | hr
              · subst he
                refine ⟨by rw [hout i1 hni, hzval], ?_⟩
                intro hdty
                rw [hws, hzwr, if_pos hdty]
                exact List.mem_append_left _ (List.mem_append_right _ (by simp))
              · have hl1r : i1 ∈ rest := by
                  rw [hsplit]
                  exact List.mem_append_left _ hr
                have hde := hdesc2 i1 hl1r
                obtain ⟨hval1, hwr1⟩ := hpre i1 hr (by rw [hde]; exact hf1)
                refine ⟨hval1, ?_⟩
                intro hdty
                have := hwr1 (by rw [hde]; exact hdty)
                rw [poolAt_congr _ st hzbp i1] at this
                exact this
            · intro i1 hi1
              have h1 : i1 ∉ rest := fun hr => hi1 (List.mem_cons_of_mem _ hr)
              have h2 : i1 ≠ i := fun he => hi1 (he ▸ List.mem_cons_self i rest)
              rw [hout i1 h1, hzo i1 h2]
        · have hv0 : (descAt st i).valid = false := by
            cases hvv : (descAt st i).valid
            · rfl
            · exact absurd hvv hv
          have hFO := flushOne_bad f i st hm hv0
          have hres : flushFrames f (i :: rest) st = (st, some .badBuffer) := by
            simp only [flushFrames]
            rw [hFO]
          rw [hres] at herr
          simp at herr
      · have hFO := flushOne_skip f i st hm
        have hstep : flushFrames f (i :: rest) st = flushFrames f rest st := by
          simp only [flushFrames]
          rw [hFO]
        rw [hstep] at herr ⊢
        have hbnd2 : ∀ j, j ∈ rest → j < st.bufDescTable.length :=
          fun j hj => hbnd j (List.mem_cons_of_mem _ hj)
        obtain ⟨⟨l1, j, l2, hsplit, hjf, hjv, hjp, hpre⟩, hws, hout⟩ :=
          flushFrames_pinned f rest st hndr hbnd2 herr
        refine ⟨⟨i :: l1, j, l2, by rw [hsplit]; rfl, hjf, hjv, hjp, ?_⟩, hws, ?_⟩
        · intro i1 hi1 hf1
          rcases List.mem_cons.mp hi1 with he | hr
          · subst he
            exact absurd hf1 hm
          · exact hpre i1 hr hf1
        · intro i1 hi1
          exact hout i1 (fun hr => hi1 (List.mem_cons_of_mem _ hr))

/-- C8 (amended): with the additional hypothesis that every index entry for
`f` points to a frame currently valid for exactly that page (no stale entries
for `f`), a flush under the claim's no-pinned/no-invalid hypotheses succeeds,
writes each dirty resident page of `f` back exactly once in frame order, and
leaves no frame referencing `f` and no index entry for `f`; and when the
flush instead aborts with `PagePinned`, it stopped at a matching valid pinned
frame and the matching frames earlier in frame order remain flushed (dirty
pages written back) and cleared. -/
theorem flushFile_spec :
    (∀ (st : BufState) (f : Nat),
       st.bufDescTable.length = st.numBufs →
       (∀ i, i < st.numBufs → (descAt st i).file = some f →
           (descAt st i).valid = true ∧ (descAt st i).pinCnt = 0) →
       (∀ p fr, htLookup st.hashTable f p = some fr →
           fr < st.numBufs ∧ (descAt st fr).file = some f ∧ (descAt st fr).pageNo = p) →
       (flushFile st f).2 = none ∧
       (∀ i, i < st.numBufs → ¬((descAt (flushFile st f).1 i).file = some f)) ∧
       (∀ p, htLookup (flushFile st f).1.hashTable f p = none) ∧
       (flushFile st f).1.writes = st.writes ++
         (List.range st.numBufs).filterMap (fun j =>
           if (descAt st j).file = some f ∧ (descAt st j).dirty = true then
             some (f, (poolAt st j).page_number) else none) ∧
       (flushFile st f).1.reads = st.reads) ∧
    (∀ (st : BufState) (f : Nat),
       st.bufDescTable.length = st.numBufs →
       (flushFile st f).2 = some .pagePinned →
       ∃ l1 j l2, List.range st.numBufs = l1 ++ j :: l2 ∧
         (descAt st j).file = some f ∧ (descAt st j).valid = true ∧
         1 ≤ (descAt st j).pinCnt ∧
         (∀ i, i ∈ l1 → (descAt st i).file = some f →
            (descAt (flushFile st f).1 i).valid = false ∧
            ((descAt st i).dirty = true →
               (f, (poolAt st i).page_number) ∈ (flushFile st f).1.writes))) := by
  constructor
  · intro st f hlen hmat hcons
    simp only [flushFile]
    have hbnd : ∀ i, i ∈ List.range st.numBufs → i < st.bufDescTable.length := by
      intro i hi
      rw [hlen]
      exact List.mem_range.mp hi
    have hmat2 : ∀ i, i ∈ List.range st.numBufs → (descAt st i).file = some f →
        (descAt st i).valid = true ∧ (descAt st i).pinCnt = 0 :=
      fun i hi => hmat i (List.mem_range.mp hi)
    have hcons2 : ∀ p fr, htLookup st.hashTable f p = some fr →
        fr ∈ List.range st.numBufs ∧ (descAt st fr).file = some f ∧
        (descAt st fr).pageNo = p := by
      intro p fr hLk
      obtain ⟨h1, h2, h3⟩ := hcons p fr hLk
      exact ⟨List.mem_range.mpr h1, h2, h3⟩
    obtain ⟨ih1, ih2, ih3, ih4, ih5, ih6, ih7, _, _, _⟩ :=
      flushFrames_ok f (List.range st.numBufs) st (List.nodup_range _) hbnd hmat2 hcons2
    refine ⟨ih1, ?_, ih5, ih6, ih7⟩
    intro i hi hcontra
    by_cases hm : (descAt st i).file = some f
    · exact absurd hcontra (by rw [(ih2 i (List.mem_range.mpr hi) hm).2]; simp)
    · rw [ih3 i (List.mem_range.mpr hi) hm] at hcontra
      exact hm hcontra
  · intro st f hlen herr
    simp only [flushFile] at herr ⊢
    have hbnd : ∀ i, i ∈ List.range st.numBufs → i < st.bufDescTable.length := by
      intro i hi
      rw [hlen]
      exact List.mem_range.mp hi
    obtain ⟨⟨l1, j, l2, hsplit, hjf, hjv, hjp, hpre⟩, _, _⟩ :=
      flushFrames_pinned f (List.range st.numBufs) st (List.nodup_range _) hbnd herr
    exact ⟨l1, j, l2, hsplit, hjf, hjv, hjp, hpre⟩

theorem flushFile_spec_witness :
    stFl0.bufDescTable.length = stFl0.numBufs ∧
    ((flushFile stFl0 0).2 = none ∧
     (∀ i, i < stFl0.numBufs → ¬((descAt (flushFile stFl0 0).1 i).file = some 0)) ∧
     (∀ p, htLookup (flushFile stFl0 0).1.hashTable 0 p = none) ∧
     (flushFile stFl0 0).1.writes = stFl0.writes ++
       (List.range stFl0.numBufs).filterMap (fun j =>
         if (descAt stFl0 j).file = some 0 ∧ (descAt stFl0 j).dirty = true then
           some (0, (poolAt stFl0 j).page_number) else none) ∧
     (flushFile stFl0 0).1.reads = stFl0.reads) :=
  ⟨by decide,
   flushFile_spec.1 stFl0 0 (by decide) (by decide)
     (by
       intro p fr hLk
       rw [show stFl0.hashTable = [((0, 1), 0)] from by decide] at hLk
       simp only [htLookup] at hLk
       by_cases hp : ((0 : Nat), (1 : Nat)) = (0, p)
       · rw [if_pos hp] at hLk
         obtain rfl : (0 : Nat) = fr := Option.some.inj hLk
         have hp1 : p = 1 := by
           have := congrArg Prod.snd hp
           simpa using this.symm
         subst hp1
         exact ⟨by decide, by decide, by decide⟩
       · rw [if_neg hp] at hLk
         cases hLk)⟩

/-- C8: the claim as stated fails on the code.  In the reachable state
`stTrace4` (fetch (0,1), unpin, fetch (0,2), unpin, on a one-frame pool) no
frame of file 0 is pinned and no invalid descriptor references file 0, yet
after the flush succeeds the stale index entry `(0, 1) → 0` — left behind by
the eviction bug in `allocBuf` — is still in the index, so the index still
holds an entry whose file is 0. -/
theorem flushFile_leaves_stale_entry :
    (∀ i, i < stTrace4.numBufs → (descAt stTrace4 i).file = some 0 →
        (descAt stTrace4 i).pinCnt = 0) ∧
    (∀ i, i < stTrace4.numBufs → (descAt stTrace4 i).file = some 0 →
        (descAt stTrace4 i).valid = true) ∧
    (flushFile stTrace4 0).2 = none ∧
    htLookup (flushFile stTrace4 0).1.hashTable 0 1 = some 0 :=
  ⟨by decide, by decide, by decide, by decide⟩

theorem poolSet_htCapacity (st : BufState) (i : Nat) (pg : Page) :
    (poolSet st i pg).htCapacity = st.htCapacity := rfl

theorem descUpdate_htCapacity (st : BufState) (i : Nat) (g : BufDesc → BufDesc) :
    (descUpdate st i g).htCapacity = st.htCapacity := rfl

theorem descAt_storeDeletePage (st : BufState) (f p i : Nat) :
    descAt (storeDeletePage st f p) i = descAt st i := rfl

theorem storeDeletePage_hashTable (st : BufState) (f p : Nat) :
    (storeDeletePage st f p).hashTable = st.hashTable := rfl

theorem storeDeletePage_deletes (st : BufState) (f p : Nat) :
    (storeDeletePage st f p).deletes = st.deletes ++ [(f, p)] := rfl

/-- C9 (amended): with the additional hypothesis that every frame valid for
`(f, p)` is indexed at `(f, p)` (the index is not missing the entry, as it can
be after `allocPage` swallows an index-capacity failure), `disposePage f p`
forwards exactly one delete request to the page store, removes any index
entry for `(f, p)`, clears the indexed frame regardless of its pin count, and
leaves no frame valid for `(f, p)`; an index miss surfaces no error (the
operation is total). -/
theorem disposePage_spec (st : BufState) (f p : Nat)
    (hlen : st.bufDescTable.length = st.numBufs)
    (hht : ∀ k fr, (k, fr) ∈ st.hashTable → fr < st.numBufs)
    (hcons : ∀ i, i < st.numBufs → (descAt st i).valid = true →
        (descAt st i).file = some f → (descAt st i).pageNo = p →
        htLookup st.hashTable f p = some i) :
    (disposePage st f p).deletes = st.deletes ++ [(f, p)] ∧
    htLookup (disposePage st f p).hashTable f p = none ∧
    (∀ i, i < st.numBufs →
        ¬((descAt (disposePage st f p) i).valid = true ∧
          (descAt (disposePage st f p) i).file = some f ∧
          (descAt (disposePage st f p) i).pageNo = p)) ∧
    (∀ fr, htLookup st.hashTable f p = some fr →
        (descAt (disposePage st f p) fr).valid = false) := by
  cases hLk : htLookup st.hashTable f p with
  | none =>
      simp only [disposePage, hLk]
      refine ⟨rfl, ?_, ?_, ?_⟩
      · rw [storeDeletePage_hashTable]
        exact hLk
      · intro i hi hcontra
        rw [descAt_storeDeletePage] at hcontra
        obtain ⟨h1, h2, h3⟩ := hcontra
        have := hcons i hi h1 h2 h3
        rw [hLk] at this
        exact absurd this (by simp)
      · intro fr hfr
        exact absurd hfr (by simp)
  | some fr0 =>
      have hfr0 : fr0 < st.numBufs := hht _ _ (htLookup_mem _ _ _ _ hLk)
      have hfr0l : fr0 < st.bufDescTable.length := by
        rw [hlen]
        exact hfr0
      simp only [disposePage, hLk]
      refine ⟨rfl, ?_, ?_, ?_⟩
      · rw [storeDeletePage_hashTable]
        show htLookup (htRemove st.hashTable f p) f p = none
        exact htLookup_htRemove_self _ _ _
      · intro i hi hcontra
        rw [descAt_storeDeletePage, descAt_setHashTable] at hcontra
        by_cases hieq : i = fr0
        · subst hieq
          rw [descAt_descUpdate_self _ _ _ hfr0l] at hcontra
          exact absurd hcontra.1 (by simp [BufDesc.clear])
        · rw [descAt_descUpdate_ne _ _ _ _ (fun he => hieq he.symm)] at hcontra
          obtain ⟨h1, h2, h3⟩ := hcontra
          have := hcons i hi h1 h2 h3
          rw [hLk] at this
          exact hieq (Option.some.inj this).symm
      · intro fr hfr
        have hfe : fr = fr0 := (Option.some.inj hfr).symm
        subst hfe
        rw [descAt_storeDeletePage, descAt_setHashTable,
          descAt_descUpdate_self _ _ _ hfr0l]
        rfl

theorem disposePage_spec_witness :
    stTrace1.bufDescTable.length = stTrace1.numBufs ∧
    (descAt stTrace1 0).pinCnt = 1 ∧
    ((disposePage stTrace1 0 1).deletes = stTrace1.deletes ++ [(0, 1)] ∧
     htLookup (disposePage stTrace1 0 1).hashTable 0 1 = none ∧
     (∀ i, i < stTrace1.numBufs →
         ¬((descAt (disposePage stTrace1 0 1) i).valid = true ∧
           (descAt (disposePage stTrace1 0 1) i).file = some 0 ∧
           (descAt (disposePage stTrace1 0 1) i).pageNo = 1)) ∧
     (∀ fr, htLookup stTrace1.hashTable 0 1 = some fr →
         (descAt (disposePage stTrace1 0 1) fr).valid = false)) :=
  ⟨by decide, by decide,
   disposePage_spec stTrace1 0 1 (by decide)
     (by
       intro k fr hm
       rw [show stTrace1.hashTable = [((0, 1), 0)] from by decide] at hm
       rcases List.mem_singleton.mp hm with h
       obtain rfl : fr = 0 := by
         have := congrArg Prod.snd h
         simpa using this
       decide)
     (by decide)⟩

/-- C9: the claim as stated fails on the code.  In the reachable state
`stCap1` — produced by `allocPage` on a pool whose index has no free
capacity, so the insert was swallowed — frame 0 is valid for page (0, 1) with
no index entry; `disposePage 0 1` misses the index, clears nothing, and the
frame is still valid for (0, 1) afterwards, contradicting "afterwards no
frame is valid for (f, p)". -/
theorem disposePage_leaves_valid_frame :
    (descAt stCap1 0).valid = true ∧ (descAt stCap1 0).file = some 0 ∧
    (descAt stCap1 0).pageNo = 1 ∧
    htLookup stCap1.hashTable 0 1 = none ∧
    (descAt (disposePage stCap1 0 1) 0).valid = true ∧
    (descAt (disposePage stCap1 0 1) 0).file = some 0 ∧
    (descAt (disposePage stCap1 0 1) 0).pageNo = 1 ∧
    (disposePage stCap1 0 1).deletes = stCap1.deletes ++ [(0, 1)] :=
  ⟨by decide, by decide, by decide, by decide, by decide, by decide, by decide, by decide⟩

/-- C3: the claim as stated fails on the code.  With an index of capacity 0,
`allocPage` returns normally (`Except.ok`, no failure reported) although the
index insertion failed; the newly claimed frame is left valid for the new
page (0, 1) with `pinCnt = 1`, and the index holds no entry for it — exactly
the corrupted pool state the claim excludes. -/
theorem allocPage_swallows_index_capacity :
    stCap0.htCapacity = 0 ∧
    allocPage stCap0 0 = (stCap1, .ok (1, 0)) ∧
    (descAt stCap1 0).valid = true ∧ (descAt stCap1 0).file = some 0 ∧
    (descAt stCap1 0).pageNo = 1 ∧ (descAt stCap1 0).pinCnt = 1 ∧
    htLookup stCap1.hashTable 0 1 = none :=
  ⟨by decide, by decide, by decide, by decide, by decide, by decide, by decide⟩

/-- C3 (amended): when the index has no room for a new entry, `allocPage`
swallows the capacity failure — the call returns `ok` and the claimed frame
stays valid for the new page with `pinCnt = 1` and no matching index entry —
while the miss path of `readPage` propagates the capacity error to the
caller but does not release the claimed frame: the frame keeps the descriptor
`allocBuf` gave it, so a previously valid victim stays valid with
`pinCnt = 1` and a previously invalid frame stays invalid. -/
theorem indexCapacity_behavior :
    (∀ (st st1 : BufState) (file frameNo : Nat),
       WF st →
       allocBuf (storeAllocPage st file).1 = (st1, .ok frameNo) →
       st.htCapacity ≤ st.hashTable.length →
       htLookup st.hashTable file (storeAllocPage st file).2 = none →
       (allocPage st file).2 = .ok ((storeAllocPage st file).2, frameNo) ∧
       (descAt (allocPage st file).1 frameNo).valid = true ∧
       (descAt (allocPage st file).1 frameNo).file = some file ∧
       (descAt (allocPage st file).1 frameNo).pageNo = (storeAllocPage st file).2 ∧
       (descAt (allocPage st file).1 frameNo).pinCnt = 1 ∧
       htLookup (allocPage st file).1.hashTable file (storeAllocPage st file).2 = none) ∧
    (∀ (st st1 : BufState) (file pageNo fId dat : Nat),
       WF st →
       htLookup st.hashTable file pageNo = none →
       st.htCapacity ≤ st.hashTable.length →
       allocBuf st = (st1, .ok fId) →
       htLookup st1.storePages file pageNo = some dat →
       (readPage st file pageNo).2 = .error .indexCapacity ∧
       descAt (readPage st file pageNo).1 fId = descAt st1 fId ∧
       ((descAt st fId).valid = true →
          (descAt st1 fId).valid = true ∧ (descAt st1 fId).pinCnt = 1) ∧
       ((descAt st fId).valid = false → (descAt st1 fId).valid = false)) := by
  constructor
  · intro st st1 file frameNo hwf hAB hcap hmiss
    have hwfA : WF (storeAllocPage st file).1 := hwf
    obtain ⟨hnb, hln, hht1, hcap1, _, _, _, _, _⟩ :=
      allocBuf_pres (storeAllocPage st file).1 st1 _ hAB
    obtain ⟨_, _, _, _, _, _, hflt, _⟩ :=
      allocBuf_ok_spec (storeAllocPage st file).1 st1 frameNo hwfA hAB
    have hfln : frameNo < st1.bufDescTable.length := by
      rw [hln]
      show frameNo < st.bufDescTable.length
      rw [hwf.2.1]
      exact hflt
    have e1 : (descUpdate (poolSet st1 frameNo
        { page_number := (storeAllocPage st file).2, data := 0 }) frameNo
        (fun d => d.set (some file) (storeAllocPage st file).2)).hashTable =
        st.hashTable := by
      rw [descUpdate_hashTable, poolSet_hashTable]
      exact hht1
    have e2 : (descUpdate (poolSet st1 frameNo
        { page_number := (storeAllocPage st file).2, data := 0 }) frameNo
        (fun d => d.set (some file) (storeAllocPage st file).2)).htCapacity =
        st.htCapacity := by
      rw [descUpdate_htCapacity, poolSet_htCapacity]
      exact hcap1
    have hins : htInsert st.hashTable st.htCapacity file (storeAllocPage st file).2
        frameNo = .error .indexCapacity := by
      simp [htInsert, hmiss, Nat.not_lt.mpr hcap]
    have hAP : allocPage st file =
        (descUpdate (poolSet st1 frameNo
            { page_number := (storeAllocPage st file).2, data := 0 }) frameNo
          (fun d => d.set (some file) (storeAllocPage st file).2),
         .ok ((storeAllocPage st file).2, frameNo)) := by
      simp only [allocPage, hAB, e1, e2, hins]
    rw [hAP]
    refine ⟨rfl, ?_, ?_, ?_, ?_, ?_⟩
    · rw [descAt_descUpdate, if_pos ⟨rfl, by rw [poolSet_bufDescTable]; exact hfln⟩]
      rfl
    · rw [descAt_descUpdate, if_pos ⟨rfl, by rw [poolSet_bufDescTable]; exact hfln⟩]
      rfl
    · rw [descAt_descUpdate, if_pos ⟨rfl, by rw [poolSet_bufDescTable]; exact hfln⟩]
      rfl
    · rw [descAt_descUpdate, if_pos ⟨rfl, by rw [poolSet_bufDescTable]; exact hfln⟩]
      rfl
    · rw [e1]
      exact hmiss
  · intro st st1 file pageNo fId dat hwf hmiss hcap hAB hms
    obtain ⟨hnb, hln, hht1, hcap1, _, _, _, _, _⟩ := allocBuf_pres st st1 _ hAB
    obtain ⟨stSel, hrc, _, _, _, _, _, hdisj⟩ := allocBuf_ok_spec st st1 fId hwf hAB
    have hfields := descRefClearOnly_fields st stSel hrc fId
    have h1 : storeReadPage st1 file pageNo =
        ({ st1 with reads := st1.reads ++ [(file, pageNo)] },
         .ok { page_number := pageNo, data := dat }) := by
      simp [storeReadPage, hms]
    have e1 : (poolSet { st1 with reads := st1.reads ++ [(file, pageNo)] } fId
        { page_number := pageNo, data := dat }).hashTable = st.hashTable := by
      rw [poolSet_hashTable]
      exact hht1
    have e2 : (poolSet { st1 with reads := st1.reads ++ [(file, pageNo)] } fId
        { page_number := pageNo, data := dat }).htCapacity = st.htCapacity := by
      rw [poolSet_htCapacity]
      exact hcap1
    have h2 : htInsert (poolSet { st1 with reads := st1.reads ++ [(file, pageNo)] } fId
        { page_number := pageNo, data := dat }).hashTable
        (poolSet { st1 with reads := st1.reads ++ [(file, pageNo)] } fId
        { page_number := pageNo, data := dat }).htCapacity file pageNo fId =
        .error .indexCapacity := by
      rw [e1, e2]
      simp [htInsert, hmiss, Nat.not_lt.mpr hcap]
    have hRP : readPage st file pageNo =
        (poolSet { st1 with reads := st1.reads ++ [(file, pageNo)] } fId
          { page_number := pageNo, data := dat }, .error .indexCapacity) := by
      simp only [readPage, hmiss, hAB, h1, h2]
    refine ⟨by rw [hRP], by rw [hRP]; rfl, ?_, ?_⟩
    · intro hval
      rcases hdisj with ⟨hv, _⟩ | ⟨hv, _, _, hdesc, _⟩
      · rw [← hfields.1, hv] at hval
        cases hval
      · rw [hdesc]
        exact ⟨rfl, rfl⟩
    · intro hval
      rcases hdisj with ⟨hv, hst1⟩ | ⟨hv, _, _, _, _⟩
      · rw [hst1, hv]
      · rw [← hfields.1, hv] at hval
        cases hval

theorem indexCapacity_behavior_witness :
    WF stCap0 ∧
    allocBuf (storeAllocPage stCap0 0).1 =
      ((allocBuf (storeAllocPage stCap0 0).1).1, Except.ok 0) ∧
    stCap0.htCapacity ≤ stCap0.hashTable.length ∧
    htLookup stCap0.hashTable 0 (storeAllocPage stCap0 0).2 = none ∧
    ((allocPage stCap0 0).2 = .ok ((storeAllocPage stCap0 0).2, 0) ∧
     (descAt (allocPage stCap0 0).1 0).valid = true ∧
     (descAt (allocPage stCap0 0).1 0).file = some 0 ∧
     (descAt (allocPage stCap0 0).1 0).pageNo = (storeAllocPage stCap0 0).2 ∧
     (descAt (allocPage stCap0 0).1 0).pinCnt = 1 ∧
     htLookup (allocPage stCap0 0).1.hashTable 0 (storeAllocPage stCap0 0).2 = none) :=
  ⟨⟨by decide, by decide, by decide⟩, by decide, by decide, by decide,
   indexCapacity_behavior.1 stCap0 (allocBuf (storeAllocPage stCap0 0).1).1 0 0
     ⟨by decide, by decide, by decide⟩ (by decide) (by decide) (by decide)⟩

end BadgerDB
